import Mathlib

/-!
Verification development for the primalscheme multiplex-PCR scheme designer
(src/primal/models.py). The Python data model and algorithms are shallowly
embedded below: Python floats are modelled as exact rationals, Python ints as
Int/Nat, and the two external collaborators (the primer3 design oracle and the
seqan adapter_alignment oracle) as function parameters whose parsed outputs
mirror what models.py reads from them. Fallible operations (Python code that
can raise) are modelled with Option where the failure matters.
-/

namespace Primal

/-- Primer direction, the LEFT / RIGHT strings used throughout models.py. -/
inductive Direction where
  | LEFT
  | RIGHT
deriving DecidableEq, Repr

/-- A reference sequence record (Bio.SeqRecord): an id and the sequence. The
sequence itself is only ever consumed by the external alignment oracle, so it
is kept abstract as a string. -/
structure RefSeq where
  id : String
  seq : String
deriving DecidableEq, Repr

/-- Parsed output of one adapter_alignment oracle call, as read by
CAlignment.__init__ (models.py lines 134-190): ref_start is result_parts[0]
(-1 signals a completely failed alignment), pid is the full-primer percent
identity result_parts[6], aln_ref is the aligned reference slice
result_parts[7][ref_start:ref_end], and mm3 is the derived boolean saying the
pair of 3-prime terminal characters of the alignment lies in
settings.MISMATCHES (settings.py is not part of src/, so the membership test
is modelled from the spec as an oracle-provided boolean). -/
structure AlignRes where
  ref_start : Int
  pid : ℚ
  mm3 : Bool
  aln_ref : String
deriving DecidableEq, Repr

/-- The alignment oracle: direction, primer sequence, reference in, parsed
alignment result out (models.py lines 135-139). -/
def AlignOracle : Type := Direction → String → RefSeq → AlignRes

/-- The fields of a CAlignment that the rest of models.py reads. aln_ref and
ref_id are Option because CAlignment.__init__ leaves those attributes unset
when the alignment failed entirely (ref_start == -1). -/
structure CAlignmentS where
  percent_identity : ℚ
  aln_ref : Option String
  ref_id : Option String
  mm_3prime : Bool
deriving DecidableEq, Repr

/-- CAlignment.__init__ (models.py lines 134-190): a failed alignment scores 0
and stores no aligned strings; otherwise the score is the oracle full-primer
percent identity, forced to 0 when there is a 3-prime terminal mismatch
(lines 188-190). -/
def mkCAlignment (ref : RefSeq) (res : AlignRes) : CAlignmentS :=
  if res.ref_start = -1 then
    { percent_identity := 0, aln_ref := none, ref_id := none, mm_3prime := false }
  else
    { percent_identity := if res.mm3 then 0 else res.pid
      aln_ref := some res.aln_ref
      ref_id := some ref.id
      mm_3prime := res.mm3 }

/-- CandidatePrimer (models.py lines 38-64). The tm and gc fields of Primer are
never consumed by the assembly algorithm and are omitted. -/
structure CandidatePrimerS where
  direction : Direction
  name : String
  seq : String
  start : Int
  percent_identity : ℚ
  alignments : List CAlignmentS
  references : List RefSeq
deriving DecidableEq, Repr

instance : Inhabited CandidatePrimerS :=
  ⟨⟨Direction.LEFT, "", "", 0, 0, [], []⟩⟩

/-- CandidatePrimer.__init__ (models.py lines 41-46): percent_identity starts
at 0 and the alignments list starts empty. -/
def mkCandidatePrimer (d : Direction) (nm sq : String) (st : Int)
    (refs : List RefSeq) : CandidatePrimerS :=
  { direction := d, name := nm, seq := sq, start := st
    percent_identity := 0, alignments := [], references := refs }

/-- CandidatePrimer.end (models.py lines 59-64): start plus length for LEFT,
start minus length for RIGHT. -/
def CandidatePrimerS.endPos (p : CandidatePrimerS) : Int :=
  if p.direction = Direction.LEFT then p.start + p.seq.length
  else p.start - p.seq.length

/-- CandidatePrimer.align (models.py lines 48-57): one CAlignment per
reference is appended to the alignments list, the local accumulator sums the
new alignment scores, and percent_identity becomes that sum divided by the
length of the (full) alignments list. Division is exact in ℚ; the zero-length
case, where Python raises ZeroDivisionError, is covered by alignChecked. -/
def CandidatePrimerS.align (ao : AlignOracle) (p : CandidatePrimerS) :
    CandidatePrimerS :=
  let newAlns := p.references.map (fun r => mkCAlignment r (ao p.direction p.seq r))
  let alns := p.alignments ++ newAlns
  { p with
    alignments := alns
    percent_identity := (newAlns.map (fun a => a.percent_identity)).sum / (alns.length : ℚ) }

/-- The fallible version of CandidatePrimer.align: Python raises
ZeroDivisionError when the alignments list is empty at the final division
(models.py line 56), which is modelled as none. -/
def CandidatePrimerS.alignChecked (ao : AlignOracle) (p : CandidatePrimerS) :
    Option CandidatePrimerS :=
  let newAlns := p.references.map (fun r => mkCAlignment r (ao p.direction p.seq r))
  let alns := p.alignments ++ newAlns
  if alns.length = 0 then none
  else some { p with
    alignments := alns
    percent_identity := (newAlns.map (fun a => a.percent_identity)).sum / (alns.length : ℚ) }

/-- CandidatePrimerPair (models.py lines 67-78). mean_percent_identity is a
plain stored field: it is computed once, inside the constructor, from the
percent_identity values the two primers carry at construction time. -/
structure CandidatePrimerPairS where
  left : CandidatePrimerS
  right : CandidatePrimerS
  mean_percent_identity : ℚ
deriving DecidableEq, Repr

instance : Inhabited CandidatePrimerPairS :=
  ⟨⟨default, default, 0⟩⟩

/-- CandidatePrimerPair.__init__ (models.py lines 70-74). -/
def mkCandidatePrimerPair (l r : CandidatePrimerS) : CandidatePrimerPairS :=
  { left := l, right := r
    mean_percent_identity := (l.percent_identity + r.percent_identity) / 2 }

/-- CandidatePrimerPair.product_length (models.py lines 76-78). -/
def CandidatePrimerPairS.product_length (p : CandidatePrimerPairS) : Int :=
  p.right.start - p.left.start + 1

/-- Stable insertion step for a descending sort: x goes in front of the first
element whose key is not at least as large. With ge a reflexive total order on
keys this reproduces the ordering and the stability of the Python list.sort
with reverse=True used in models.py. -/
def insertDescBy (ge : α → α → Bool) (x : α) : List α → List α
  | [] => [x]
  | y :: ys => if ge x y then x :: y :: ys else y :: insertDescBy ge x ys

/-- Stable descending insertion sort. -/
def sortDescBy (ge : α → α → Bool) : List α → List α
  | [] => []
  | x :: xs => insertDescBy ge x (sortDescBy ge xs)

/-- The descending sort key of models.py line 89: the lexicographic order on
(mean_percent_identity, right.end). ge a b says a sorts no later than b. -/
def pairKeyGe (a b : CandidatePrimerPairS) : Bool :=
  decide (b.mean_percent_identity < a.mean_percent_identity
    ∨ (a.mean_percent_identity = b.mean_percent_identity
       ∧ b.right.endPos ≤ a.right.endPos))

/-- Descending-by-count key for the alternate-variant frequency sorts of
models.py lines 102 and 106. -/
def countGe (a b : String × Nat) : Bool :=
  decide (b.2 ≤ a.2)

/-- models.py lines 92-94: pair.left.align(); pair.right.align(). The pair
object keeps its stored mean_percent_identity; only the two primers change. -/
def alignPair (ao : AlignOracle) (p : CandidatePrimerPairS) : CandidatePrimerPairS :=
  { p with left := p.left.align ao, right := p.right.align ao }

/-- models.py lines 97-98: the aligned reference-side strings of the top
primer that differ from its own sequence. In the source a completely failed
alignment has no aln_ref attribute at all and this comprehension would raise
AttributeError; the model skips such records. -/
def alnRefVariants (alns : List CAlignmentS) (sq : String) : List String :=
  alns.filterMap (fun a =>
    match a.aln_ref with
    | some s => if s ≠ sq then some s else none
    | none => none)

/-- models.py lines 101-106: pair each distinct variant with its occurrence
count and stable-sort by descending count. The iteration order of the Python
set is modelled as the order of last occurrences (List.dedup). -/
def variantCounts (p : CandidatePrimerS) : List (String × Nat) :=
  let alts := alnRefVariants p.alignments p.seq
  sortDescBy countGe (alts.dedup.map (fun a => (a, alts.count a)))

/-- models.py lines 109-120: walk the count-sorted variants with their index
n; a variant yields an alternate primer exactly when n <= max_alts - 1 (the
comparison is on Python ints, hence on Int here) and its count exceeds 1; the
alternate reuses the top-primer start coordinate and is scored immediately. -/
def altsLoop (ao : AlignOracle) (refs : List RefSeq) (d : Direction)
    (bn : String) (st : Int) (ma : Int) : Nat → List (String × Nat) → List CandidatePrimerS
  | _, [] => []
  | k, (v, c) :: rest =>
    (if (k : Int) ≤ ma - 1 ∧ 1 < c then
      [(mkCandidatePrimer d (bn ++ "_alt" ++ toString (k + 1)) v st refs).align ao]
    else []) ++ altsLoop ao refs d bn st ma (k + 1) rest

/-- Region (models.py lines 80-130): region number, pool label, the sorted and
aligned candidate pairs, and the alternates mined from the top pair. -/
structure RegionS where
  region_num : Nat
  pool : String
  candidate_pairs : List CandidatePrimerPairS
  alternates : List CandidatePrimerS
deriving DecidableEq, Repr

instance : Inhabited RegionS :=
  ⟨⟨0, "", [], []⟩⟩

/-- Region.top_pair (models.py lines 122-124): candidate_pairs[0]. -/
def RegionS.top_pair (r : RegionS) : CandidatePrimerPairS :=
  r.candidate_pairs.headD default

/-- Region.__init__ (models.py lines 82-120). The incoming pairs are sorted
descending by (mean_percent_identity, right.end) FIRST (line 89) and aligned
only afterwards (lines 92-94), then the alternates are mined from the aligned
top pair. The chunk_start argument of the Python constructor is unused there
and omitted here. On an empty pair list the Python code would raise at
candidate_pairs[0]; the model returns no alternates (the pipeline only builds
a Region after the diversity guard, so the list is never empty there). -/
def mkRegion (ao : AlignOracle) (region_num : Nat)
    (candidate_pairs : List CandidatePrimerPairS) (references : List RefSeq)
    (max_alts : Int) : RegionS :=
  let sorted := (sortDescBy pairKeyGe candidate_pairs).map (alignPair ao)
  { region_num := region_num
    pool := if region_num % 2 = 0 then "2" else "1"
    candidate_pairs := sorted
    alternates :=
      match sorted with
      | [] => []
      | top :: _ =>
        altsLoop ao references Direction.LEFT top.left.name top.left.start
            max_alts 0 (variantCounts top.left)
          ++ altsLoop ao references Direction.RIGHT top.right.name top.right.start
            max_alts 0 (variantCounts top.right) }

/-- Region.unique_candidates (models.py lines 126-130). -/
def RegionS.unique_candidates (r : RegionS) : List Nat :=
  [((r.candidate_pairs.map (fun p => p.left.seq)).dedup).length,
   ((r.candidate_pairs.map (fun p => p.right.seq)).dedup).length]

/-- The MultiplexScheme configuration fields consumed by the assembly loop
(models.py lines 196-207): length of the primary reference and the integer
command-line parameters. -/
structure SchemeConfig where
  refLen : Int
  amplicon_length : Int
  min_overlap : Int
  max_gap : Int
deriving DecidableEq, Repr

/-- models.py line 223: regions[-1].candidate_pairs[0] if len(regions) >= 1
else None. -/
def prevPair (rs : List RegionS) : Option CandidatePrimerPairS :=
  rs.getLast?.map RegionS.top_pair

/-- models.py line 224: regions[-2].candidate_pairs[0] if len(regions) > 2
else None. Note the source condition really is len > 2, i.e. at least three
committed regions, despite the comment above it. -/
def prevPairSamePool (rs : List RegionS) : Option CandidatePrimerPairS :=
  if 2 < rs.length then rs.dropLast.getLast?.map RegionS.top_pair else none

/-- models.py lines 227-241: the left coordinate limit handed to the window
search for the next region. -/
def left_primer_left_limit (rs : List RegionS) : Int :=
  match prevPairSamePool rs, prevPair rs with
  | some psp, some p =>
    if psp.right.start < p.left.start then p.left.endPos + 1
    else psp.right.start + 1
  | none, some p => p.left.endPos + 1
  | _, none => 0

/-- The left-limit formula exactly as claim C2 words it, for comparison with
the source embedding left_primer_left_limit: the same-pool branch is taken as
soon as at least two regions are committed, and its no-gap arm uses
prev_same_pool.right.end + 1. -/
def leftLimitClaimed (rs : List RegionS) : Int :=
  if 2 ≤ rs.length then
    match rs.dropLast.getLast?.map RegionS.top_pair, rs.getLast?.map RegionS.top_pair with
    | some psp, some p =>
      if psp.right.start < p.left.start then p.left.endPos + 1
      else psp.right.endPos + 1
    | _, _ => 0
  else
    match rs.getLast?.map RegionS.top_pair with
    | some p => p.left.endPos + 1
    | none => 0

/-- The left-limit formula of claim C2 amended to what the source computes:
the same-pool branch needs more than two committed regions, and its no-gap arm
uses prev_same_pool.right.start + 1; with one or two committed regions the
limit is prev.left.end + 1; with none it is 0. -/
def leftLimitAmended (rs : List RegionS) : Int :=
  if 2 < rs.length then
    match rs.dropLast.getLast?.map RegionS.top_pair, rs.getLast?.map RegionS.top_pair with
    | some psp, some p =>
      if psp.right.start < p.left.start then p.left.endPos + 1
      else psp.right.start + 1
    | _, _ => 0
  else
    match rs.getLast?.map RegionS.top_pair with
    | some p => p.left.endPos + 1
    | none => 0

/-- models.py line 244: prev_pair.right.end - min_overlap - 1 when a previous
region exists, else max_gap. -/
def left_primer_right_limit (cfg : SchemeConfig) (rs : List RegionS) : Int :=
  match prevPair rs with
  | some p => p.right.endPos - cfg.min_overlap - 1
  | none => cfg.max_gap

/-- models.py lines 247-249: the next region is terminal when less than one
amplicon length remains after prev_pair.right.end. -/
def isLastRegion (cfg : SchemeConfig) (rs : List RegionS) : Bool :=
  match prevPair rs with
  | some p => decide (cfg.refLen - p.right.endPos < cfg.amplicon_length)
  | none => false

/-- What one iteration of MultiplexScheme.run decides to do after deriving the
per-region limits: either invoke the window search with those limits, or (as
the spec claims for infeasible limit pairs) report a fatal invalid
configuration. The source embedding runStepAction below covers models.py
lines 220-257. -/
inductive AssemblerAction where
  | search (leftLimit rightLimit : Int) (isLast : Bool)
  | fatalInvalidConfiguration
deriving DecidableEq, Repr

/-- The per-iteration decision of MultiplexScheme.run (models.py lines
220-257): derive the two limits and the terminal flag, then invoke
_find_primers. The source contains no feasibility check between the limit
derivation and the search call. -/
def runStepAction (cfg : SchemeConfig) (rs : List RegionS) : AssemblerAction :=
  AssemblerAction.search (left_primer_left_limit rs) (left_primer_right_limit cfg rs)
    (isLastRegion cfg rs)

/-- The assembly loop of MultiplexScheme.run (models.py lines 215-294) with
the window search abstracted as a function from (region_num, left limit,
right limit, is_last_region) to Option RegionS; none models the NoSuitableError
raised by _find_primers, on which the loop breaks and returns the regions
committed so far. Fuel only bounds the number of iterations; each recursive
call consumes one unit. -/
def runLoop (cfg : SchemeConfig) (search : Nat → Int → Int → Bool → Option RegionS) :
    Nat → List RegionS → Nat → List RegionS
  | 0, rs, _ => rs
  | fuel + 1, rs, rn =>
    match search (rn + 1) (left_primer_left_limit rs) (left_primer_right_limit cfg rs)
        (isLastRegion cfg rs) with
    | none => rs
    | some reg =>
      if isLastRegion cfg rs then rs ++ [reg]
      else runLoop cfg search fuel (rs ++ [reg]) (rn + 1)

/-- One candidate pair as parsed from the primer3 design-oracle output in
models.py lines 437-441: the two sequences and the two template-relative start
offsets PRIMER_LEFT_i[0] and PRIMER_RIGHT_i[0]. -/
structure P3Candidate where
  left_seq : String
  right_seq : String
  left_start : Int
  right_start : Int
deriving DecidableEq, Repr

/-- models.py lines 429-446: build CandidatePrimerPair objects from the design
oracle output, shifting the template-relative starts by chunk_start (plus one
for the right primer). -/
def buildPairs (pfx : String) (region_num : Nat) (refs : List RefSeq)
    (chunk_start : Int) (cands : List P3Candidate) : List CandidatePrimerPairS :=
  cands.map (fun c =>
    mkCandidatePrimerPair
      (mkCandidatePrimer Direction.LEFT (pfx ++ "_" ++ toString region_num ++ "_LEFT")
        c.left_seq (c.left_start + chunk_start) refs)
      (mkCandidatePrimer Direction.RIGHT (pfx ++ "_" ++ toString region_num ++ "_RIGHT")
        c.right_seq (c.right_start + chunk_start + 1) refs))

/-- The per-invocation inputs of MultiplexScheme._find_primers (models.py
lines 389-475): genome length, step size, candidate cap, alternates cap,
region number, the inherited left limit, the initial chunk bounds
(_chunk_start and _chunk_end, models.py lines 409-410), the name stem
(self.prefix), the reference panel, the primer3 design oracle as a function of
the chunk bounds, and the alignment oracle. -/
structure FindConfig where
  refLen : Int
  step_size : Int
  max_candidates : Nat
  max_alts : Int
  region_num : Nat
  left_limit : Int
  orig_cs : Int
  orig_ce : Int
  pfx : String
  references : List RefSeq
  oracle : Int → Int → List P3Candidate
  ao : AlignOracle

/-- The mutable state of the stepping loop in _find_primers: the current chunk
bounds and the hit_left_limit flag (models.py lines 409-420). -/
structure FindState where
  chunk_start : Int
  chunk_end : Int
  hit_left_limit : Bool
deriving DecidableEq, Repr

/-- The candidate pairs built for the current chunk (models.py lines 427-446);
the range(self.max_candidates) loop with its break caps the list length. -/
def chunkPairs (cfg : FindConfig) (s : FindState) : List CandidatePrimerPairS :=
  buildPairs cfg.pfx cfg.region_num cfg.references s.chunk_start
    ((cfg.oracle s.chunk_start s.chunk_end).take cfg.max_candidates)

/-- The diversity guard of models.py line 453: more than 2 distinct left
sequences and more than 2 distinct right sequences. -/
def diversityOk (cfg : FindConfig) (s : FindState) : Bool :=
  decide (2 < ((chunkPairs cfg s).map (fun p => p.left.seq)).dedup.length
    ∧ 2 < ((chunkPairs cfg s).map (fun p => p.right.seq)).dedup.length)

/-- The Region returned on success (models.py line 454). -/
def regionAt (cfg : FindConfig) (s : FindState) : RegionS :=
  mkRegion cfg.ao cfg.region_num (chunkPairs cfg s) cfg.references cfg.max_alts

/-- models.py line 457: the loop steps right when this is the first region or
once the left limit has been hit. -/
def rightPhase (cfg : FindConfig) (s : FindState) : Bool :=
  cfg.region_num == 1 || s.hit_left_limit

/-- The result of one whole _find_primers invocation: a Region, or the
NoSuitableError raised at models.py line 464. -/
inductive FindOutcome where
  | success (r : RegionS)
  | failure
deriving DecidableEq, Repr

/-- One iteration of the while True loop of models.py lines 421-475: check the
diversity guard; on success return the Region; otherwise step right (failing
once chunk_end passes the genome end) or step left (snapping back to the
original bounds and setting hit_left_limit once chunk_start reaches the
inherited left limit). -/
def loopStep (cfg : FindConfig) (s : FindState) : Sum FindOutcome FindState :=
  if diversityOk cfg s then Sum.inl (FindOutcome.success (regionAt cfg s))
  else if rightPhase cfg s then
    if cfg.refLen < s.chunk_end + cfg.step_size then Sum.inl FindOutcome.failure
    else Sum.inr ⟨s.chunk_start + cfg.step_size, s.chunk_end + cfg.step_size, s.hit_left_limit⟩
  else if s.chunk_start - cfg.step_size ≤ cfg.left_limit then
    Sum.inr ⟨cfg.orig_cs, cfg.orig_ce, true⟩
  else
    Sum.inr ⟨s.chunk_start - cfg.step_size, s.chunk_end - cfg.step_size, s.hit_left_limit⟩

/-- The stepping loop run with fuel: none means the fuel ran out before the
loop exited. -/
def findLoop (cfg : FindConfig) : Nat → FindState → Option FindOutcome
  | 0, _ => none
  | n + 1, s =>
    match loopStep cfg s with
    | Sum.inl r => some r
    | Sum.inr s' => findLoop cfg n s'

/-- Termination measure for the stepping loop: in the right phase, how far
chunk_end still is from the genome end; in the left phase, how far chunk_start
still is from the left limit plus the whole right-phase budget available after
the snap back to the original bounds. -/
def findMeasure (cfg : FindConfig) (s : FindState) : Nat :=
  if rightPhase cfg s then (cfg.refLen - s.chunk_end).toNat + 1
  else (s.chunk_start - cfg.left_limit).toNat + 1 + ((cfg.refLen - cfg.orig_ce).toNat + 1)

/-- The selection condition of claim C9, stated over the embedded model: x is
one of the alternates generated for the given top primer, i.e. some rank n of
the count-sorted variant list carries a variant v with count c such that n is
within the configured maximum, c exceeds 1, and x is the freshly synthesized
and scored primer at the top-primer start coordinate. -/
def isSelectedAlt (ao : AlignOracle) (refs : List RefSeq) (d : Direction)
    (top : CandidatePrimerS) (ma : Int) (x : CandidatePrimerS) : Prop :=
  ∃ n v c, n < (variantCounts top).length
    ∧ (variantCounts top).getD n ("", 0) = (v, c)
    ∧ (n : Int) ≤ ma - 1
    ∧ 1 < c
    ∧ x = (mkCandidatePrimer d (top.name ++ "_alt" ++ toString (n + 1)) v top.start refs).align ao

/-- A one-reference panel for the concrete scenarios below. -/
def refA : RefSeq := ⟨"refA", "ACGTACGT"⟩

/-- A second reference for the two-reference scenarios. -/
def refB : RefSeq := ⟨"refB", "ACGTACGA"⟩

/-- The single-reference panel. -/
def refsA : List RefSeq := [refA]

/-- An alignment oracle reporting a clean full-identity alignment against any
reference, with an aligned reference string distinct from any primer below. -/
def aoPerfect : AlignOracle := fun _ _ _ => ⟨0, 100, false, "ZZ"⟩

/-- One candidate pair built exactly as the pipeline builds it: two fresh
primers, hence both percent_identity fields are 0 at pair construction. -/
def pairs1 : List CandidatePrimerPairS :=
  [mkCandidatePrimerPair (mkCandidatePrimer Direction.LEFT "L" "AC" 10 refsA)
    (mkCandidatePrimer Direction.RIGHT "R" "GT" 100 refsA)]

/-- Committed region 1 top pair for the limit-derivation scenarios: right
primer start 500, length 2, so right.end = 498. -/
def pairA : CandidatePrimerPairS :=
  ⟨⟨Direction.LEFT, "L1", "AA", 100, 0, [], []⟩,
   ⟨Direction.RIGHT, "R1", "GG", 500, 0, [], []⟩, 0⟩

/-- Committed region 2 top pair: left primer start 400, length 2, so
left.end = 402; no gap versus pairA (400 <= 500). -/
def pairB : CandidatePrimerPairS :=
  ⟨⟨Direction.LEFT, "L2", "AA", 400, 0, [], []⟩,
   ⟨Direction.RIGHT, "R2", "GG", 700, 0, [], []⟩, 0⟩

/-- Committed region 3 top pair for the infeasible-limits scenario. -/
def pairC : CandidatePrimerPairS :=
  ⟨⟨Direction.LEFT, "L3", "AA", 200, 0, [], []⟩,
   ⟨Direction.RIGHT, "R3", "GG", 300, 0, [], []⟩, 0⟩

/-- Exactly two committed regions. -/
def rs2ex : List RegionS :=
  [⟨1, "1", [pairA], []⟩, ⟨2, "2", [pairB], []⟩]

/-- Three committed regions. -/
def rs3ex : List RegionS :=
  [⟨1, "1", [pairA], []⟩, ⟨2, "2", [pairB], []⟩, ⟨3, "1", [pairC], []⟩]

/-- A configuration whose min_overlap is so large that the derived right limit
drops below the derived left limit for rs3ex. -/
def cfg3 : SchemeConfig := ⟨1000, 400, 300, 50⟩

/-- A small window-search configuration: first region, genome of length 2,
step 1, and a design oracle that never returns candidates, so the loop must
fail after one right step. -/
def cfg4 : FindConfig :=
  { refLen := 2, step_size := 1, max_candidates := 5, max_alts := 0
    region_num := 1, left_limit := 0, orig_cs := 0, orig_ce := 2
    pfx := "P", references := [], oracle := fun _ _ => [], ao := aoPerfect }

/-- The initial stepping state for cfg4. -/
def s40 : FindState := ⟨0, 2, false⟩

/-- A scheme configuration for the graceful-stop scenario. -/
def cfg5 : SchemeConfig := ⟨100, 40, 10, 50⟩

/-- A window search that always reports no suitable primers. -/
def search5 : Nat → Int → Int → Bool → Option RegionS := fun _ _ _ _ => none

/-- A candidate pair with stored mean score 50 and right.end 98. -/
def pairLo : CandidatePrimerPairS :=
  ⟨⟨Direction.LEFT, "La", "AA", 10, 0, [], refsA⟩,
   ⟨Direction.RIGHT, "Ra", "GG", 100, 0, [], refsA⟩, 50⟩

/-- A candidate pair with stored mean score 80 and right.end 198. -/
def pairHi : CandidatePrimerPairS :=
  ⟨⟨Direction.LEFT, "Lb", "AA", 20, 0, [], refsA⟩,
   ⟨Direction.RIGHT, "Rb", "GG", 200, 0, [], refsA⟩, 80⟩

/-- An unsorted candidate-pair list: the higher-scoring pair arrives second. -/
def pairs8 : List CandidatePrimerPairS := [pairLo, pairHi]

/-- The two-reference panel for the alternate-primer scenario. -/
def refs9 : List RefSeq := [refA, refB]

/-- An alignment oracle whose LEFT alignments both show the reference-side
variant GG (differing from the top left primer sequence AA), while the RIGHT
alignments match the right primer exactly. -/
def ao9 : AlignOracle := fun d _ _ =>
  match d with
  | Direction.LEFT => ⟨0, 90, false, "GG"⟩
  | Direction.RIGHT => ⟨0, 95, false, "TT"⟩

/-- One candidate pair for the alternate-primer scenario. -/
def pairs9 : List CandidatePrimerPairS :=
  [mkCandidatePrimerPair (mkCandidatePrimer Direction.LEFT "L" "AA" 10 refs9)
    (mkCandidatePrimer Direction.RIGHT "R" "TT" 50 refs9)]

/-- The alternate primer that the scenario should generate: variant GG at rank
0 of the count-sorted variant list (name L_alt1), synthesized at the top-left
start 10 and scored against both references. -/
def x9 : CandidatePrimerS :=
  (mkCandidatePrimer Direction.LEFT ("L" ++ "_alt" ++ toString (0 + 1)) "GG" 10 refs9).align ao9

/-! Helper lemmas about the stable descending insertion sort. -/

theorem length_insertDescBy (ge : α → α → Bool) (x : α) :
    ∀ l : List α, (insertDescBy ge x l).length = l.length + 1 := by
  intro l
  induction l with
  | nil => rfl
  | cons y ys ih =>
    simp only [insertDescBy]
    by_cases h : ge x y = true
    · simp [h]
    · simp [h, ih]

theorem length_sortDescBy (ge : α → α → Bool) :
    ∀ l : List α, (sortDescBy ge l).length = l.length := by
  intro l
  induction l with
  | nil => rfl
  | cons y ys ih => simp [sortDescBy, length_insertDescBy, ih]

theorem mem_insertDescBy (ge : α → α → Bool) (x : α) :
    ∀ (l : List α) (a : α), a ∈ insertDescBy ge x l ↔ a = x ∨ a ∈ l := by
  intro l
  induction l with
  | nil => intro a; simp [insertDescBy]
  | cons y ys ih =>
    intro a
    simp only [insertDescBy]
    by_cases h : ge x y = true
    · simp [h, List.mem_cons]
      try tauto
    · simp [h, List.mem_cons, ih]
      try tauto

theorem pairwise_insertDescBy (ge : α → α → Bool)
    (htot : ∀ a b, ge a b = true ∨ ge b a = true)
    (htr : ∀ a b c, ge a b = true → ge b c = true → ge a c = true) (x : α) :
    ∀ l : List α, l.Pairwise (fun a b => ge a b = true) →
      (insertDescBy ge x l).Pairwise (fun a b => ge a b = true) := by
  intro l
  induction l with
  | nil => intro _; simp [insertDescBy]
  | cons y ys ih =>
    intro hp
    rw [List.pairwise_cons] at hp
    obtain ⟨hy, hys⟩ := hp
    simp only [insertDescBy]
    by_cases h : ge x y = true
    · rw [if_pos h]
      refine List.Pairwise.cons ?_ (List.pairwise_cons.mpr ⟨hy, hys⟩)
      intro b hb
      rcases List.mem_cons.mp hb with rfl | hb
      · exact h
      · exact htr x y b h (hy b hb)
    · rw [if_neg h]
      refine List.Pairwise.cons ?_ (ih hys)
      intro b hb
      rcases (mem_insertDescBy ge x ys b).mp hb with hbx | hb
      · rw [hbx]; exact (htot x y).resolve_left h
      · exact hy b hb

theorem pairwise_sortDescBy (ge : α → α → Bool)
    (htot : ∀ a b, ge a b = true ∨ ge b a = true)
    (htr : ∀ a b c, ge a b = true → ge b c = true → ge a c = true) :
    ∀ l : List α, (sortDescBy ge l).Pairwise (fun a b => ge a b = true) := by
  intro l
  induction l with
  | nil => simp [sortDescBy]
  | cons y ys ih => exact pairwise_insertDescBy ge htot htr y _ ih

/-! Helper lemmas about the pair sort key. -/

theorem pairKeyGe_total (a b : CandidatePrimerPairS) :
    pairKeyGe a b = true ∨ pairKeyGe b a = true := by
  simp only [pairKeyGe, decide_eq_true_eq]
  rcases lt_trichotomy a.mean_percent_identity b.mean_percent_identity with h | h | h
  · right; left; exact h
  · rcases le_total b.right.endPos a.right.endPos with h2 | h2
    · left; right; exact ⟨h, h2⟩
    · right; right; exact ⟨h.symm, h2⟩
  · left; left; exact h

theorem pairKeyGe_trans (a b c : CandidatePrimerPairS)
    (h1 : pairKeyGe a b = true) (h2 : pairKeyGe b c = true) : pairKeyGe a c = true := by
  simp only [pairKeyGe, decide_eq_true_eq] at h1 h2 ⊢
  rcases h1 with h1 | ⟨h1e, h1r⟩
  · rcases h2 with h2 | ⟨h2e, h2r⟩
    · exact Or.inl (h2.trans h1)
    · exact Or.inl (h2e ▸ h1)
  · rcases h2 with h2 | ⟨h2e, h2r⟩
    · exact Or.inl (lt_of_lt_of_le h2 h1e.ge)
    · exact Or.inr ⟨h1e.trans h2e, h2r.trans h1r⟩

theorem pairKeyGe_alignPair (ao : AlignOracle) (a b : CandidatePrimerPairS) :
    pairKeyGe (alignPair ao a) (alignPair ao b) = pairKeyGe a b := rfl

/-- The candidate_pairs list of any constructed Region is pairwise ordered by
the descending (mean_percent_identity, right.end) key: aligning the primers
afterwards changes neither component of the key. -/
theorem region_pairs_pairwise (ao : AlignOracle) (rn : Nat)
    (pairs : List CandidatePrimerPairS) (refs : List RefSeq) (ma : Int) :
    (mkRegion ao rn pairs refs ma).candidate_pairs.Pairwise
      (fun a b => pairKeyGe a b = true) := by
  have hs := pairwise_sortDescBy pairKeyGe pairKeyGe_total pairKeyGe_trans pairs
  have hm : ((sortDescBy pairKeyGe pairs).map (alignPair ao)).Pairwise
      (fun a b => pairKeyGe a b = true) :=
    List.Pairwise.map (alignPair ao)
      (fun a b (h : pairKeyGe a b = true) => by rwa [pairKeyGe_alignPair]) hs
  simpa [mkRegion] using hm

/-! Helper lemmas for the window-search termination argument. -/

theorem findMeasure_pos (cfg : FindConfig) (s : FindState) : 1 ≤ findMeasure cfg s := by
  unfold findMeasure
  split <;> omega

theorem rightPhase_of_hit (cfg : FindConfig) (s : FindState)
    (h : s.hit_left_limit = true) : rightPhase cfg s = true := by
  simp [rightPhase, h]

theorem findMeasure_decreases (cfg : FindConfig) (hstep : 0 < cfg.step_size)
    (s s' : FindState) (h : loopStep cfg s = Sum.inr s') :
    findMeasure cfg s' < findMeasure cfg s := by
  unfold loopStep at h
  by_cases hd : diversityOk cfg s = true
  · simp [hd] at h
  · rw [if_neg hd] at h
    by_cases hrp : rightPhase cfg s = true
    · rw [if_pos hrp] at h
      by_cases hce : cfg.refLen < s.chunk_end + cfg.step_size
      · simp [hce] at h
      · rw [if_neg hce] at h
        have hs' : s' = ⟨s.chunk_start + cfg.step_size, s.chunk_end + cfg.step_size,
            s.hit_left_limit⟩ := (Sum.inr.injEq _ _ ▸ h).symm
        subst hs'
        have hrp' : rightPhase cfg
            ⟨s.chunk_start + cfg.step_size, s.chunk_end + cfg.step_size,
              s.hit_left_limit⟩ = true := by
          simpa [rightPhase] using (by simpa [rightPhase] using hrp :
            (cfg.region_num == 1) = true ∨ s.hit_left_limit = true)
        unfold findMeasure
        rw [if_pos hrp, if_pos hrp']
        simp only
        omega
    · rw [if_neg hrp] at h
      have hrpfalse : ¬(cfg.region_num == 1) = true ∧ ¬s.hit_left_limit = true := by
        constructor <;> intro hh <;> exact hrp (by simp [rightPhase, hh])
      by_cases hcs : s.chunk_start - cfg.step_size ≤ cfg.left_limit
      · rw [if_pos hcs] at h
        have hs' : s' = ⟨cfg.orig_cs, cfg.orig_ce, true⟩ := (Sum.inr.injEq _ _ ▸ h).symm
        subst hs'
        unfold findMeasure
        rw [if_neg hrp, if_pos (by simp [rightPhase])]
        simp only
        omega
      · rw [if_neg hcs] at h
        have hs' : s' = ⟨s.chunk_start - cfg.step_size, s.chunk_end - cfg.step_size,
            s.hit_left_limit⟩ := (Sum.inr.injEq _ _ ▸ h).symm
        subst hs'
        have hrp' : rightPhase cfg
            ⟨s.chunk_start - cfg.step_size, s.chunk_end - cfg.step_size,
              s.hit_left_limit⟩ = false := by
          simp [rightPhase, hrpfalse.1, hrpfalse.2]
        unfold findMeasure
        rw [if_neg hrp, if_neg (by simp [hrp'])]
        simp only
        omega

theorem findLoop_total (cfg : FindConfig) (hstep : 0 < cfg.step_size) :
    ∀ (n : Nat) (s : FindState), findMeasure cfg s ≤ n →
      ∃ r, findLoop cfg n s = some r := by
  intro n
  induction n with
  | zero =>
    intro s hs
    exact absurd hs (by have := findMeasure_pos cfg s; omega)
  | succ n ih =>
    intro s hs
    cases h : loopStep cfg s with
    | inl r => exact ⟨r, by simp [findLoop, h]⟩
    | inr s' =>
      have hdec := findMeasure_decreases cfg hstep s s' h
      obtain ⟨r, hr⟩ := ih s' (by omega)
      exact ⟨r, by simp [findLoop, h, hr]⟩

/-! Helper lemma characterising the alternates emitted by altsLoop. -/

theorem altsLoop_mem (ao : AlignOracle) (refs : List RefSeq) (d : Direction)
    (bn : String) (st : Int) (ma : Int) :
    ∀ (cs : List (String × Nat)) (k : Nat) (x : CandidatePrimerS),
      x ∈ altsLoop ao refs d bn st ma k cs →
      ∃ n v c, n < cs.length ∧ cs.getD n ("", 0) = (v, c)
        ∧ ((k + n : Nat) : Int) ≤ ma - 1 ∧ 1 < c
        ∧ x = (mkCandidatePrimer d (bn ++ "_alt" ++ toString (k + n + 1)) v st refs).align ao := by
  intro cs
  induction cs with
  | nil => intro k x hx; simp [altsLoop] at hx
  | cons hd tl ih =>
    intro k x hx
    obtain ⟨v, c⟩ := hd
    simp only [altsLoop] at hx
    rcases List.mem_append.mp hx with hx | hx
    · by_cases hcond : (k : Int) ≤ ma - 1 ∧ 1 < c
      · rw [if_pos hcond] at hx
        rcases List.mem_singleton.mp hx with rfl
        exact ⟨0, v, c, by simp, by simp, by simpa using hcond.1, hcond.2, by simp⟩
      · rw [if_neg hcond] at hx
        simp at hx
    · obtain ⟨n, v', c', hn, hget, hma, hc, hxeq⟩ := ih (k + 1) x hx
      refine ⟨n + 1, v', c', by simpa using hn, by simpa using hget, ?_, hc, ?_⟩
      · have : ((k + 1 + n : Nat) : Int) ≤ ma - 1 := hma
        omega
      · have harg : k + 1 + n + 1 = k + (n + 1) + 1 := by omega
        rw [← harg]
        exact hxeq

/-- The conservation contribution of one CAlignment record: 0 on total
failure, 0 on a 3-prime terminal mismatch, otherwise the oracle identity. -/
theorem mkCAlignment_pid (r : RefSeq) (res : AlignRes) :
    (mkCAlignment r res).percent_identity =
      if res.ref_start = -1 then 0 else if res.mm3 then 0 else res.pid := by
  by_cases h : res.ref_start = -1 <;> simp [mkCAlignment, h]

theorem map_pid_mkCAlignment (ao : AlignOracle) (d : Direction) (sq : String) :
    ∀ refs : List RefSeq,
      refs.map (fun r => (mkCAlignment r (ao d sq r)).percent_identity) =
        refs.map (fun r => if (ao d sq r).ref_start = -1 then (0 : ℚ)
          else if (ao d sq r).mm3 then 0 else (ao d sq r).pid) := by
  intro refs
  induction refs with
  | nil => rfl
  | cons r rest ih => simp [ih, mkCAlignment_pid]

/-- C1: the claim says that after Region construction every pair satisfies
mean_percent_identity = (left.percent_identity + right.percent_identity) / 2.
The code computes mean_percent_identity inside CandidatePrimerPair.__init__,
before Region.__init__ ever calls align(), and never updates it, so on this
concrete input the aligned primers carry score 100 while the stored pair mean
stays 0, contradicting the claimed equation (and the comment at models.py
line 88, which expects the line-89 sort to act on conservation scores). -/
theorem pair_mean_identity_stale_after_align :
    (mkRegion aoPerfect 1 pairs1 refsA 0).top_pair.left.percent_identity = 100
      ∧ (mkRegion aoPerfect 1 pairs1 refsA 0).top_pair.right.percent_identity = 100
      ∧ (mkRegion aoPerfect 1 pairs1 refsA 0).top_pair.mean_percent_identity = 0
      ∧ (mkRegion aoPerfect 1 pairs1 refsA 0).top_pair.mean_percent_identity ≠
        ((mkRegion aoPerfect 1 pairs1 refsA 0).top_pair.left.percent_identity
          + (mkRegion aoPerfect 1 pairs1 refsA 0).top_pair.right.percent_identity) / 2 := by
  have hL : (mkRegion aoPerfect 1 pairs1 refsA 0).top_pair.left.percent_identity = 100 := by
    simp [mkRegion, RegionS.top_pair, pairs1, refsA, refA, aoPerfect, sortDescBy, insertDescBy,
      alignPair, CandidatePrimerS.align, mkCandidatePrimer, mkCandidatePrimerPair, mkCAlignment]
  have hR : (mkRegion aoPerfect 1 pairs1 refsA 0).top_pair.right.percent_identity = 100 := by
    simp [mkRegion, RegionS.top_pair, pairs1, refsA, refA, aoPerfect, sortDescBy, insertDescBy,
      alignPair, CandidatePrimerS.align, mkCandidatePrimer, mkCandidatePrimerPair, mkCAlignment]
  have hM : (mkRegion aoPerfect 1 pairs1 refsA 0).top_pair.mean_percent_identity = 0 := by
    simp [mkRegion, RegionS.top_pair, pairs1, refsA, refA, aoPerfect, sortDescBy, insertDescBy,
      alignPair, CandidatePrimerS.align, mkCandidatePrimer, mkCandidatePrimerPair, mkCAlignment]
  refine ⟨hL, hR, hM, ?_⟩
  rw [hL, hR, hM]
  norm_num

/-- C2 (counterexample): with exactly two committed regions the claim formula
takes the same-pool branch (prev_same_pool.right.end + 1 = 499 here) while the
code, whose same-pool branch needs len(regions) > 2, returns
prev.left.end + 1 = 403. -/
theorem left_limit_claim_counterexample :
    left_primer_left_limit rs2ex = 403 ∧ leftLimitClaimed rs2ex = 499
      ∧ left_primer_left_limit rs2ex ≠ leftLimitClaimed rs2ex :=
  ⟨by decide, by decide, by decide⟩

/-- C2 (amended): the left limit the assembler derives equals the amended
formula: with more than two committed regions, prev.left.end + 1 when a gap
already opened (prev.left.start > prev_same_pool.right.start) and otherwise
prev_same_pool.right.start + 1; with one or two committed regions,
prev.left.end + 1; with none, 0. -/
theorem left_limit_matches_amended_formula (rs : List RegionS) :
    left_primer_left_limit rs = leftLimitAmended rs := by
  by_cases h : 2 < rs.length
  · have h1 : rs ≠ [] := by
      intro e
      rw [e] at h
      simp at h
    have h2 : rs.dropLast ≠ [] := by
      intro e
      have hl := List.length_dropLast rs
      rw [e] at hl
      simp at hl
      omega
    obtain ⟨p, hp⟩ := Option.isSome_iff_exists.mp (List.getLast?_isSome.mpr h1)
    obtain ⟨q, hq⟩ := Option.isSome_iff_exists.mp (List.getLast?_isSome.mpr h2)
    simp [left_primer_left_limit, leftLimitAmended, prevPairSamePool, prevPair, h, hp, hq]
  · simp only [leftLimitAmended, if_neg h]
    simp only [left_primer_left_limit, prevPairSamePool, if_neg h, prevPair]
    cases hq : rs.getLast? <;> simp

/-- C3 (counterexample): a committed-region state where both prev and
prev_same_pool exist and the derived right limit (-3) is at most the derived
left limit (701), yet the per-iteration decision of MultiplexScheme.run is
still to invoke the window search: the claimed fatal invalid-configuration
report does not exist in the code. -/
theorem invalid_config_check_absent_counterexample :
    (prevPair rs3ex).isSome = true ∧ (prevPairSamePool rs3ex).isSome = true
      ∧ left_primer_right_limit cfg3 rs3ex ≤ left_primer_left_limit rs3ex
      ∧ runStepAction cfg3 rs3ex ≠ AssemblerAction.fatalInvalidConfiguration :=
  ⟨by decide, by decide, by decide, by decide⟩

/-- C3 (amended): the assembler performs no feasibility check at all: for
every configuration and committed-region state, the iteration derives the two
limits and the terminal flag and proceeds straight to the window search. -/
theorem assembler_always_proceeds_to_search (cfg : SchemeConfig) (rs : List RegionS) :
    runStepAction cfg rs = AssemblerAction.search (left_primer_left_limit rs)
      (left_primer_right_limit cfg rs) (isLastRegion cfg rs) := rfl

/-- C4: with a positive step size the stepping loop of _find_primers
terminates from every state; a failure exit happens only in the right-stepping
phase with the incremented chunk_end past the genome length; in the
left-stepping phase a crossing of the inherited left limit continues with the
original chunk bounds and hit_left_limit set (rather than failing); and the
hit_left_limit flag is never cleared, so right-stepping is permanent. -/
theorem window_search_terminates_and_exit_modes (cfg : FindConfig)
    (hstep : 0 < cfg.step_size) :
    (∀ s, ∃ n r, findLoop cfg n s = some r)
      ∧ (∀ t, loopStep cfg t = Sum.inl FindOutcome.failure →
          rightPhase cfg t = true ∧ cfg.refLen < t.chunk_end + cfg.step_size)
      ∧ (∀ t u, rightPhase cfg t = false →
          t.chunk_start - cfg.step_size ≤ cfg.left_limit →
          loopStep cfg t = Sum.inr u → u = ⟨cfg.orig_cs, cfg.orig_ce, true⟩)
      ∧ (∀ t u, t.hit_left_limit = true → loopStep cfg t = Sum.inr u →
          u.hit_left_limit = true) := by
  refine ⟨?_, ?_, ?_, ?_⟩
  · intro s
    obtain ⟨r, hr⟩ := findLoop_total cfg hstep (findMeasure cfg s) s le_rfl
    exact ⟨findMeasure cfg s, r, hr⟩
  · intro t h
    unfold loopStep at h
    by_cases hd : diversityOk cfg t = true
    · simp [hd] at h
    · rw [if_neg hd] at h
      by_cases hrp : rightPhase cfg t = true
      · rw [if_pos hrp] at h
        by_cases hce : cfg.refLen < t.chunk_end + cfg.step_size
        · exact ⟨hrp, hce⟩
        · rw [if_neg hce] at h
          simp at h
      · rw [if_neg hrp] at h
        by_cases hcs : t.chunk_start - cfg.step_size ≤ cfg.left_limit
        · rw [if_pos hcs] at h
          simp at h
        · rw [if_neg hcs] at h
          simp at h
  · intro t u hrp hcs h
    unfold loopStep at h
    by_cases hd : diversityOk cfg t = true
    · simp [hd] at h
    · rw [if_neg hd, if_neg (by simp [hrp]), if_pos hcs] at h
      exact (Sum.inr.inj h).symm
  · intro t u hhit h
    unfold loopStep at h
    by_cases hd : diversityOk cfg t = true
    · simp [hd] at h
    · rw [if_neg hd, if_pos (rightPhase_of_hit cfg t hhit)] at h
      by_cases hce : cfg.refLen < t.chunk_end + cfg.step_size
      · rw [if_pos hce] at h
        simp at h
      · rw [if_neg hce] at h
        obtain rfl := (Sum.inr.inj h).symm
        simpa using hhit

/-- C4 (witness): the theorem applied to the concrete configuration cfg4 with
its unit step size; the loop indeed exits from the initial state s40. -/
theorem window_search_terminates_witness :
    0 < cfg4.step_size ∧ ∃ n r, findLoop cfg4 n s40 = some r :=
  ⟨by decide, (window_search_terminates_and_exit_modes cfg4 (by decide)).1 s40⟩

/-- C5: whenever the window search for the next region reports no suitable
primers, one more iteration of the assembly loop returns exactly the regions
committed so far: nothing is appended, nothing is modified, and the loop
returns normally rather than propagating an error. -/
theorem assembler_stops_gracefully_on_failure (cfg : SchemeConfig)
    (search : Nat → Int → Int → Bool → Option RegionS) (fuel : Nat)
    (rs : List RegionS) (rn : Nat)
    (h : search (rn + 1) (left_primer_left_limit rs) (left_primer_right_limit cfg rs)
      (isLastRegion cfg rs) = none) :
    runLoop cfg search (fuel + 1) rs rn = rs := by
  simp [runLoop, h]

/-- C5 (witness): the theorem applied to a search that always fails, starting
from an empty committed list: the run returns the empty list. -/
theorem assembler_stops_gracefully_on_failure_witness :
    search5 1 (left_primer_left_limit []) (left_primer_right_limit cfg5 [])
        (isLastRegion cfg5 []) = none
      ∧ runLoop cfg5 search5 1 [] 0 = [] :=
  ⟨rfl, assembler_stops_gracefully_on_failure cfg5 search5 0 [] 0 rfl⟩

/-- C6: scoring a freshly constructed candidate against a non-empty panel
yields the arithmetic mean over all references of the per-reference
contribution, which is 0 on total alignment failure, 0 on a 3-prime terminal
mismatch, and the oracle percent identity otherwise; and the per-reference
alignment records are stored on the candidate, one per reference in order. -/
theorem conservation_score_is_mean_over_references (ao : AlignOracle) (d : Direction)
    (nm sq : String) (st : Int) (refs : List RefSeq) (h : refs ≠ []) :
    ((mkCandidatePrimer d nm sq st refs).align ao).percent_identity =
        (refs.map (fun r =>
          if (ao d sq r).ref_start = -1 then (0 : ℚ)
          else if (ao d sq r).mm3 then 0 else (ao d sq r).pid)).sum / (refs.length : ℚ)
      ∧ ((mkCandidatePrimer d nm sq st refs).align ao).alignments =
        refs.map (fun r => mkCAlignment r (ao d sq r)) := by
  constructor
  · simp only [CandidatePrimerS.align, mkCandidatePrimer, List.nil_append, List.map_map,
      List.length_map, Function.comp_def]
    rw [map_pid_mkCAlignment]
  · simp [CandidatePrimerS.align, mkCandidatePrimer]

/-- C6 (witness): the theorem applied to the one-reference panel refsA with
the clean oracle aoPerfect. -/
theorem conservation_score_is_mean_over_references_witness :
    refsA ≠ []
      ∧ ((mkCandidatePrimer Direction.LEFT "L" "AC" 10 refsA).align aoPerfect).percent_identity =
        (refsA.map (fun r =>
          if (aoPerfect Direction.LEFT "AC" r).ref_start = -1 then (0 : ℚ)
          else if (aoPerfect Direction.LEFT "AC" r).mm3 then 0
          else (aoPerfect Direction.LEFT "AC" r).pid)).sum / (refsA.length : ℚ) :=
  ⟨by simp [refsA],
    (conservation_score_is_mean_over_references aoPerfect Direction.LEFT "L" "AC" 10 refsA
      (by simp [refsA])).1⟩

/-- C7: one iteration of the stepping loop returns a Region (built from the
candidate pairs of the current chunk) exactly when those pairs contain at
least 3 distinct left primer sequences and at least 3 distinct right primer
sequences; with less diversity the iteration never succeeds and instead steps
or fails. -/
theorem window_success_iff_diversity (cfg : FindConfig) (s : FindState) :
    loopStep cfg s = Sum.inl (FindOutcome.success (regionAt cfg s))
      ↔ (3 ≤ ((chunkPairs cfg s).map (fun p => p.left.seq)).dedup.length
        ∧ 3 ≤ ((chunkPairs cfg s).map (fun p => p.right.seq)).dedup.length) := by
  unfold loopStep
  by_cases hd : diversityOk cfg s = true
  · rw [if_pos hd]
    constructor
    · intro _
      exact of_decide_eq_true hd
    · intro _
      rfl
  · have hd' : ¬(2 < ((chunkPairs cfg s).map (fun p => p.left.seq)).dedup.length
        ∧ 2 < ((chunkPairs cfg s).map (fun p => p.right.seq)).dedup.length) := by
      simpa [diversityOk] using hd
    rw [if_neg hd]
    constructor
    · intro hcontra
      split_ifs at hcontra <;> simp_all
    · intro hdiv
      exact absurd ⟨hdiv.1, hdiv.2⟩ hd'

/-- C8: the candidate_pairs list of every constructed Region is sorted
descending by the lexicographic key (mean_percent_identity, right.end): every
adjacent pair of positions is related by the descending key order, and
top_pair is the first element of the list. -/
theorem region_pairs_sorted_desc (ao : AlignOracle) (rn : Nat)
    (pairs : List CandidatePrimerPairS) (refs : List RefSeq) (ma : Int) (j : Nat)
    (hj : j + 1 < (mkRegion ao rn pairs refs ma).candidate_pairs.length) :
    pairKeyGe ((mkRegion ao rn pairs refs ma).candidate_pairs.getD j default)
        ((mkRegion ao rn pairs refs ma).candidate_pairs.getD (j + 1) default) = true
      ∧ (mkRegion ao rn pairs refs ma).candidate_pairs.head? =
        some (mkRegion ao rn pairs refs ma).top_pair := by
  have hp := region_pairs_pairwise ao rn pairs refs ma
  constructor
  · have hj0 : j < (mkRegion ao rn pairs refs ma).candidate_pairs.length := by omega
    rw [List.getD_eq_getElem _ _ hj0, List.getD_eq_getElem _ _ hj]
    exact List.pairwise_iff_getElem.mp hp j (j + 1) hj0 hj (by omega)
  · cases hl : (mkRegion ao rn pairs refs ma).candidate_pairs with
    | nil =>
      rw [hl] at hj
      simp at hj
    | cons a l =>
      simp [RegionS.top_pair, hl]

/-- C8 (witness): the theorem applied at j = 0 to a Region built from two
pairs arriving in ascending score order; the construction reorders them. -/
theorem region_pairs_sorted_desc_witness :
    0 + 1 < (mkRegion aoPerfect 2 pairs8 refsA 0).candidate_pairs.length
      ∧ (pairKeyGe ((mkRegion aoPerfect 2 pairs8 refsA 0).candidate_pairs.getD 0 default)
          ((mkRegion aoPerfect 2 pairs8 refsA 0).candidate_pairs.getD (0 + 1) default) = true
        ∧ (mkRegion aoPerfect 2 pairs8 refsA 0).candidate_pairs.head? =
          some (mkRegion aoPerfect 2 pairs8 refsA 0).top_pair) := by
  have hlen : 0 + 1 < (mkRegion aoPerfect 2 pairs8 refsA 0).candidate_pairs.length := by
    simp [mkRegion, List.length_map, length_sortDescBy, pairs8]
  exact ⟨hlen, region_pairs_sorted_desc aoPerfect 2 pairs8 refsA 0 0 hlen⟩

/-- C9: every primer in a constructed Region alternates list arises, for its
side, from a variant of the top-pair alignments: some rank n of the
count-sorted variant list holds its variant v with count c, the rank is within
the configured maximum (n <= max_alts - 1 on Int, as in the source), the
variant occurs in more than one reference alignment (c > 1), and the alternate
is the primer synthesized at the corresponding top-primer start coordinate and
scored against the full panel. -/
theorem alternates_only_frequent_within_max (ao : AlignOracle) (rn : Nat)
    (pairs : List CandidatePrimerPairS) (refs : List RefSeq) (ma : Int)
    (x : CandidatePrimerS) (hx : x ∈ (mkRegion ao rn pairs refs ma).alternates) :
    isSelectedAlt ao refs Direction.LEFT (mkRegion ao rn pairs refs ma).top_pair.left ma x
      ∨ isSelectedAlt ao refs Direction.RIGHT (mkRegion ao rn pairs refs ma).top_pair.right ma x := by
  cases hl : (sortDescBy pairKeyGe pairs).map (alignPair ao) with
  | nil =>
    exfalso
    apply List.not_mem_nil x
    simpa [mkRegion, hl] using hx
  | cons top rest =>
    have halts : (mkRegion ao rn pairs refs ma).alternates =
        altsLoop ao refs Direction.LEFT top.left.name top.left.start ma 0
            (variantCounts top.left)
          ++ altsLoop ao refs Direction.RIGHT top.right.name top.right.start ma 0
            (variantCounts top.right) := by
      simp [mkRegion, hl]
    have htop : (mkRegion ao rn pairs refs ma).top_pair = top := by
      simp [mkRegion, RegionS.top_pair, hl]
    rw [halts] at hx
    rw [htop]
    rcases List.mem_append.mp hx with hx | hx
    · left
      obtain ⟨n, v, c, hn, hget, hma, hc, hxeq⟩ :=
        altsLoop_mem ao refs Direction.LEFT top.left.name top.left.start ma _ 0 x hx
      exact ⟨n, v, c, hn, hget, by simpa using hma, hc, by simpa using hxeq⟩
    · right
      obtain ⟨n, v, c, hn, hget, hma, hc, hxeq⟩ :=
        altsLoop_mem ao refs Direction.RIGHT top.right.name top.right.start ma _ 0 x hx
      exact ⟨n, v, c, hn, hget, by simpa using hma, hc, by simpa using hxeq⟩

/-- C9 (witness): the theorem applied to the two-reference scenario where the
variant GG backs both references: the generated alternate x9 is in the
alternates list and satisfies the selection condition. -/
theorem alternates_only_frequent_within_max_witness :
    x9 ∈ (mkRegion ao9 1 pairs9 refs9 1).alternates
      ∧ (isSelectedAlt ao9 refs9 Direction.LEFT
          (mkRegion ao9 1 pairs9 refs9 1).top_pair.left 1 x9
        ∨ isSelectedAlt ao9 refs9 Direction.RIGHT
          (mkRegion ao9 1 pairs9 refs9 1).top_pair.right 1 x9) := by
  have hx : x9 ∈ (mkRegion ao9 1 pairs9 refs9 1).alternates := by
    simp [x9, mkRegion, pairs9, refs9, refA, refB, ao9, sortDescBy, insertDescBy, alignPair,
      CandidatePrimerS.align, mkCandidatePrimer, mkCandidatePrimerPair, mkCAlignment,
      variantCounts, alnRefVariants, altsLoop, countGe]
  exact ⟨hx, alternates_only_frequent_within_max ao9 1 pairs9 refs9 1 x9 hx⟩

/-- C10: align() on a freshly constructed candidate succeeds exactly on a
non-empty reference panel: the fallible version returns the aligned candidate,
whose score is the stored alignment scores averaged over the panel size, and
on an empty panel the division by len(alignments) = 0 is undefined (Python
ZeroDivisionError, modelled as none). -/
theorem align_defined_iff_references_nonempty (ao : AlignOracle) (d : Direction)
    (nm sq : String) (st : Int) (refs : List RefSeq) (h : refs ≠ []) :
    (mkCandidatePrimer d nm sq st refs).alignChecked ao =
        some ((mkCandidatePrimer d nm sq st refs).align ao)
      ∧ ((mkCandidatePrimer d nm sq st refs).align ao).percent_identity =
        (((mkCandidatePrimer d nm sq st refs).align ao).alignments.map
          (fun a => a.percent_identity)).sum / (refs.length : ℚ)
      ∧ (mkCandidatePrimer d nm sq st []).alignChecked ao = none := by
  refine ⟨?_, ?_, ?_⟩
  · simp only [CandidatePrimerS.alignChecked, CandidatePrimerS.align, mkCandidatePrimer,
      List.nil_append, List.length_map]
    rw [if_neg (mt List.length_eq_zero.mp h)]
  · simp [CandidatePrimerS.align, mkCandidatePrimer]
  · simp [CandidatePrimerS.alignChecked, mkCandidatePrimer]

/-- C10 (witness): the theorem applied to the one-reference panel refsA. -/
theorem align_defined_iff_references_nonempty_witness :
    refsA ≠ []
      ∧ (mkCandidatePrimer Direction.LEFT "L" "AC" 10 refsA).alignChecked aoPerfect =
        some ((mkCandidatePrimer Direction.LEFT "L" "AC" 10 refsA).align aoPerfect) :=
  ⟨by simp [refsA],
    (align_defined_iff_references_nonempty aoPerfect Direction.LEFT "L" "AC" 10 refsA
      (by simp [refsA])).1⟩

end Primal
